import Mathlib

/-!
Verification of the peer-discovery crawler in `src/network_map.py` (the
Signum network map generator).  The Python source is shallowly embedded:
JSON values become an inductive type, the HTTP layer becomes an oracle
describing the outcome of each request, exceptions become `Except`, the
shared mutable sets/dicts become explicit state threaded through the
exploration functions, and the thread pools are sequentialised (the claims
under study are about interleaving-free executions; the bookkeeping guards
are the same ones the threaded code runs).

Modelling notes, applying to everything below:
* `updates` (Python dict) is an association list; the code only ever writes
  `updates[a]` under a guard `a not in updates`, so appending preserves the
  dict semantics.  `peers_to_explore` and `checked_addresses` (Python sets)
  are duplicate-free lists with insertion-order iteration, a determinisation
  of the unordered Python sets.
* A `trace` field records every address for which a `P2PApi` client session
  issued its requests; it instruments "the Peer RPC Client is invoked for A".
* Python `in` on JSON values and `[...]` indexing are modelled with their
  real semantics (TypeError on non-containers, substring test on strings),
  since several claims quantify over arbitrary node responses.
* The `peers` payload handed to `peers_to_explore.update(...)` is modelled
  only for the fragment the claims exercise: an array of strings (the
  protocol shape) is iterated; any other payload is modelled as the
  exception branch.  (Python would iterate other iterables element-wise;
  no claim involves such payloads.)
-/

/-- A parsed JSON value, the possible result of `response.json()`.
Numbers are modelled as integers; no claim computes with numeric values. -/
inductive Json where
  | null
  | bool (b : Bool)
  | num (n : Int)
  | str (s : String)
  | arr (elems : List Json)
  | obj (fields : List (String × Json))

/-- Key lookup in a JSON object's field list (Python dict lookup: JSON
objects from `json.loads` have unique keys; first match). -/
def lookupJ (fs : List (String × Json)) (k : String) : Option Json :=
  (fs.find? (fun kv => kv.1 == k)).map (fun kv => kv.2)

/-- Python `==` between a JSON value and a string: only a string compares
equal to a string. -/
def jsonEqStr (j : Json) (k : String) : Bool :=
  match j with
  | Json.str s => s == k
  | _ => false

/-- Python truthiness of a JSON value (`bool(x)`). -/
def jTruthy : Json → Bool
  | Json.null => false
  | Json.bool b => b
  | Json.num n => n != 0
  | Json.str s => s != ""
  | Json.arr xs => !xs.isEmpty
  | Json.obj fs => !fs.isEmpty

/-- Python `key in value` for a JSON value: key membership for dicts,
element equality for lists, substring test for strings, TypeError
(modelled as `Except.error ()`) for null/bool/number. -/
def pyContains (key : String) : Json → Except Unit Bool
  | Json.obj fs => Except.ok (fs.any (fun kv => kv.1 == key))
  | Json.arr xs => Except.ok (xs.any (fun x => jsonEqStr x key))
  | Json.str s => Except.ok (decide (key.toList <:+: s.toList))
  | _ => Except.error ()

/-- Python `value[key]` with a string key: dict lookup (KeyError when the
key is absent), TypeError on anything else. -/
def pyIndex (j : Json) (key : String) : Except Unit Json :=
  match j with
  | Json.obj fs =>
    match lookupJ fs key with
    | some v => Except.ok v
    | none => Except.error ()
  | _ => Except.error ()

/-- The observable outcome of one HTTP request: either the session raised a
`requests.RequestException` (connection error, DNS failure, timeout, ...),
or a response arrived with a status code and a body that may or may not
parse as JSON (`none` = `response.json()` raises `ValueError`). -/
inductive HttpOutcome where
  | exn
  | resp (status : Nat) (body : Option Json)

/-- `requests.Response.raise_for_status` raises exactly for 4xx and 5xx. -/
def statusRaises (status : Nat) : Bool :=
  decide (400 ≤ status ∧ status < 600)

namespace P2PApi

/-- `P2PApi._request` (src/network_map.py lines 102-129): any
`RequestException` (including the one `raise_for_status` raises for a 4xx
or 5xx status) and any `ValueError` from JSON parsing are caught and
collapsed into the empty dict; otherwise the parsed JSON body is returned
whatever its shape. -/
def _request (o : HttpOutcome) : Json :=
  match o with
  | HttpOutcome.exn => Json.obj []
  | HttpOutcome.resp status body =>
    if statusRaises status then Json.obj []
    else
      match body with
      | none => Json.obj []
      | some j => j

/-- `P2PApi.get_peers` (lines 131-137) applied to the value `_request`
returned: `response["peers"]` when the key test succeeds, the empty list
otherwise.  The key test or the indexing can raise (TypeError) on
non-object responses, which the method does not catch. -/
def get_peers (response : Json) : Except Unit Json := do
  let b ← pyContains "peers" response
  if b then pyIndex response "peers" else pure (Json.arr [])

/-- `P2PApi.get_version` (lines 139-147) applied to the value `_request`
returned: the top-level `"version"` value, else the `"version"` value
inside `"application"`, else the literal string `"Unknown"`.  The
membership tests and indexing follow Python semantics and can raise
(TypeError) on non-container values, which the method does not catch. -/
def get_version (response : Json) : Except Unit Json := do
  let hv ← pyContains "version" response
  if hv then pyIndex response "version"
  else
    let ha ← pyContains "application" response
    if ha then
      let app ← pyIndex response "application"
      let hav ← pyContains "version" app
      if hav then pyIndex app "version"
      else pure (Json.str "Unknown")
    else pure (Json.str "Unknown")

end P2PApi

/-- Result of the geo lookup as explore_peer consumes it. -/
structure GeoInfo where
  country_code : Json
  latitude : Json
  longitude : Json

/-- The dictionary `get_geo_info` returns on any caught failure. -/
def geoDefault : GeoInfo :=
  { country_code := Json.str "??", latitude := Json.null, longitude := Json.null }

/-- `get_geo_info` (lines 52-66): a `RequestException` (including
`raise_for_status`), a `ValueError` from parsing, or a `KeyError` from a
missing field degrade to the `"??"`/None default; a falsy country code is
replaced by `"??"`.  Indexing a parseable non-object body raises a
TypeError the function does not catch (`Except.error ()`). -/
def get_geo_info (o : HttpOutcome) : Except Unit GeoInfo :=
  match o with
  | HttpOutcome.exn => Except.ok geoDefault
  | HttpOutcome.resp status body =>
    if statusRaises status then Except.ok geoDefault
    else
      match body with
      | none => Except.ok geoDefault
      | some (Json.obj fs) =>
        match lookupJ fs "country_code", lookupJ fs "latitude", lookupJ fs "longitude" with
        | some cc, some la, some lo =>
          Except.ok { country_code := if jTruthy cc then cc else Json.str "??",
                      latitude := la, longitude := lo }
        | _, _, _ => Except.ok geoDefault
      | some _ => Except.error ()

/-! ### `urllib.parse.urlparse(...).hostname`, on the URL shapes the crawler
builds.  `urlsplit` strips a leading `scheme:` when the text before the
first colon is nonempty, starts with a letter and consists of scheme
characters; the netloc is the `/?#`-free run after a leading `//`; the
hostname drops the userinfo before the last `@`, keeps the bracketed part
for IPv6 literals and otherwise stops at the first colon, and is
lowercased; an empty hostname is `None`.  Implemented on character lists so
every step is kernel-computable. -/

/-- The characters allowed in a URL scheme. -/
def isSchemeChar (c : Char) : Bool :=
  c.isAlphanum || c == '+' || c == '-' || c == '.'

/-- The part of the list before the first occurrence of `c` paired with the
part after it, or `none` when `c` does not occur (Python `partition`). -/
def splitFirst (c : Char) : List Char → Option (List Char × List Char)
  | [] => none
  | x :: xs =>
    if x == c then some ([], xs)
    else (splitFirst c xs).map (fun p => (x :: p.1, p.2))

/-- The part of the list after the last occurrence of `c`, the whole list
when `c` does not occur (Python `rpartition`, keeping the tail). -/
def afterLast (c : Char) (l : List Char) : List Char :=
  (l.reverse.takeWhile (fun x => x != c)).reverse

/-- Strip a leading `scheme:` as `urlsplit` does. -/
def stripScheme (cs : List Char) : List Char :=
  match splitFirst ':' cs with
  | none => cs
  | some (pre, rest) =>
    if !pre.isEmpty && (cs.headD ' ').isAlpha && pre.all isSchemeChar then rest else cs

/-- The netloc of the scheme-stripped URL: empty unless it starts `//`. -/
def netlocOf (cs : List Char) : List Char :=
  if cs.take 2 = ['/', '/'] then
    (cs.drop 2).takeWhile (fun c => c != '/' && c != '?' && c != '#')
  else []

/-- The raw host part of a netloc: after the userinfo, the text inside
`[...]` for bracketed IPv6 literals, otherwise everything before the first
colon (which starts the port). -/
def hostPart (netloc : List Char) : List Char :=
  let hostinfo := afterLast '@' netloc
  match splitFirst '[' hostinfo with
  | some (_, rest) => rest.takeWhile (fun c => c != ']')
  | none => hostinfo.takeWhile (fun c => c != ':')

/-- `urlparse(url).hostname`: lowercased, `None` when empty. -/
def hostnameOf (url : String) : Option String :=
  let h := hostPart (netlocOf (stripScheme url.toList))
  if h.isEmpty then none else some (String.mk (h.map Char.toLower))

/-- Python `str.startswith`, on the underlying character lists. -/
def pyStartsWith (s pre : String) : Bool :=
  pre.toList.isPrefixOf s.toList

/-- The address with the `http://` scheme prepended when it does not
already start with `"http"` (lines 39-40). -/
def ensureHttp (peer : String) : String :=
  if pyStartsWith peer "http" then peer else "http://" ++ peer

/-- `get_ip_by_domain` (lines 38-50).  `socket.gethostbyname` is the
resolution collaborator, passed as the oracle `dns` (`none` models
`socket.gaierror`).  A hostname containing a colon (an IPv6 literal, whose
brackets `urlparse` strips) is returned without consulting the resolver;
any other hostname, dotted IPv4 literals included, is passed to the
resolver; no hostname yields `none`. -/
def get_ip_by_domain (dns : String → Option String) (peer : String) : Option String :=
  match hostnameOf (ensureHttp peer) with
  | none => none
  | some hostname =>
    if hostname.toList.any (fun c => c == ':') then some hostname
    else dns hostname

/-! ### The crawl engine state and the exploration functions -/

/-- The value stored at `updates[address]` on success (lines 165-173). -/
structure PeerRec where
  announced_address : String
  real_ip : Option String
  country_code : Json
  latitude : Json
  longitude : Json
  version : Json
  peers : List String

/-- What one `P2PApi` session (`get_peers` then `get_version`, lines
155-158) produces for the exploring function: either a propagating
exception (`raise`) or a peers list and a version value. -/
inductive QueryResult where
  | raise
  | ok (peers : List String) (version : Json)

/-- The peers payload as `peers_to_explore.update(peers)` consumes it: an
array of strings.  (Any other payload is mapped to `none` and treated as
the exception branch by `nodeQuery`; see the modelling notes at the top.) -/
def asStringList : Json → Option (List String)
  | Json.arr xs => xs.mapM (fun x => match x with | Json.str s => some s | _ => none)
  | _ => none

/-- One `P2PApi` session against a node, given the HTTP outcomes of its
`getPeers` and `getInfo` requests: the sequence
`peers = get_peers(); version = get_version(); peers_to_explore.update(peers)`
raises as soon as one step raises. -/
def nodeQuery (peersO infoO : HttpOutcome) : QueryResult :=
  match P2PApi.get_peers (P2PApi._request peersO) with
  | Except.error _ => QueryResult.raise
  | Except.ok pj =>
    match P2PApi.get_version (P2PApi._request infoO) with
    | Except.error _ => QueryResult.raise
    | Except.ok v =>
      match asStringList pj with
      | some ps => QueryResult.ok ps v
      | none => QueryResult.raise

/-- The world outside the crawler: the HTTP outcome of each request a
`P2PApi` bound to an address issues, the hostname resolver, and the HTTP
outcome of the geo lookup for each IP. -/
structure Env where
  peersResp : String → HttpOutcome
  infoResp : String → HttpOutcome
  dns : String → Option String
  geoResp : String → HttpOutcome

/-- The outcome of the `P2PApi` session `explore_peer`/`explore_node` open
against `a`. -/
def Env.query (e : Env) (a : String) : QueryResult :=
  nodeQuery (e.peersResp a) (e.infoResp a)

/-- The peers an address reports, empty on the exception branch. -/
def queryPeers (e : Env) (a : String) : List String :=
  match e.query a with
  | QueryResult.raise => []
  | QueryResult.ok ps _ => ps

/-- The shared mutable state of `main` (lines 303-305), plus a `trace` of
addresses for which a client session was opened (instrumentation; no claim
definition reads it back). -/
structure CrawlState where
  updates : List (String × Option PeerRec)
  peers_to_explore : List String
  checked_addresses : List String
  trace : List String

/-- The keys of the `updates` dict. -/
def keys (u : List (String × Option PeerRec)) : List String :=
  u.map (fun kv => kv.1)

/-- Python `set.add`: insert when absent (iteration order: insertion). -/
def insertS (l : List String) (a : String) : List String :=
  if a ∈ l then l else l ++ [a]

/-- Python `set.update(xs)`: insert each element. -/
def updateS (l : List String) (xs : List String) : List String :=
  xs.foldl insertS l

/-- `explore_peer` (lines 149-174).  The guard returns at once when the
address is in `updates` or `checked_addresses`; otherwise the address is
added to `checked_addresses`, the client session runs (trace entry); an
exception from it records `None`; otherwise the peers feed the frontier,
the address is resolved and geo-enriched, and the record is written.  An
uncaught geo TypeError (lines 163-164 are outside the `try`) escapes
`explore_peer` before the record is written: the caller (the executor of
line 192 whose results are never consumed, or `explore_node`'s `except`)
swallows it, so the state keeps the frontier and checked updates but gains
no record. -/
def explore_peer (env : Env) (address : String) (st : CrawlState) : CrawlState :=
  if address ∈ keys st.updates ∨ address ∈ st.checked_addresses then st
  else
    let st1 : CrawlState :=
      { st with checked_addresses := insertS st.checked_addresses address,
                trace := st.trace ++ [address] }
    match env.query address with
    | QueryResult.raise =>
      { st1 with updates := st1.updates ++ [(address, none)] }
    | QueryResult.ok peers version =>
      let st2 : CrawlState :=
        { st1 with peers_to_explore := updateS st1.peers_to_explore peers }
      let ip := get_ip_by_domain env.dns address
      let geo : Except Unit GeoInfo :=
        match ip with
        | some i => get_geo_info (env.geoResp i)
        | none => Except.ok geoDefault
      match geo with
      | Except.error _ => st2
      | Except.ok g =>
        { st2 with updates := st2.updates ++
            [(address, some { announced_address := address, real_ip := ip,
                              country_code := g.country_code, latitude := g.latitude,
                              longitude := g.longitude, version := version,
                              peers := peers })] }

/-- `explore_node` (lines 176-192).  The guard checks only
`checked_addresses`; the address is added to it, the client session runs
(trace entry); an exception returns with no record; otherwise the peers
feed the frontier, `explore_peer` is called on the address itself (line
187; it hits its guard, the address having just been checked), and then on
each reported peer (the inner executor of lines 191-192, sequentialised in
report order). -/
def explore_node (env : Env) (address : String) (st : CrawlState) : CrawlState :=
  if address ∈ st.checked_addresses then st
  else
    let st1 : CrawlState :=
      { st with checked_addresses := insertS st.checked_addresses address,
                trace := st.trace ++ [address] }
    match env.query address with
    | QueryResult.raise => st1
    | QueryResult.ok peers _version =>
      let st2 : CrawlState :=
        { st1 with peers_to_explore := updateS st1.peers_to_explore peers }
      let st3 := explore_peer env address st2
      peers.foldl (fun s p => explore_peer env p s) st3

/-- One BFS layer: `explore_node` over a worklist (the executor maps of
lines 306-307 and 311-312, sequentialised). -/
def runLayer (env : Env) (st : CrawlState) (addrs : List String) : CrawlState :=
  addrs.foldl (fun s a => explore_node env a s) st

/-- The `while peers_to_explore:` loop of lines 308-312, fuelled: copy the
frontier, clear it, run a layer over the copy.  (C5 shows the fuel needed
is finite whenever the address universe is.) -/
def runLoop (env : Env) : Nat → CrawlState → CrawlState
  | 0, st => st
  | Nat.succ n, st =>
    if st.peers_to_explore.isEmpty then st
    else
      let new_peers := st.peers_to_explore
      runLoop env n (runLayer env { st with peers_to_explore := [] } new_peers)

/-- The empty state `main` builds at lines 303-305. -/
def initState : CrawlState :=
  { updates := [], peers_to_explore := [], checked_addresses := [], trace := [] }

/-- The crawl portion of `main` (lines 300-312): seed layer over the
bootstrap list (already shuffled; the order is a parameter), then the
frontier loop. -/
def mainCrawl (env : Env) (bootstrap : List String) (fuel : Nat) : CrawlState :=
  runLoop env fuel (runLayer env initState bootstrap)

/-- A call the engine can make on the shared state (for claims quantifying
over arbitrary interleaving-free call sequences). -/
inductive Step where
  | peer (a : String)
  | node (a : String)

/-- Execute one call. -/
def runStep (env : Env) (st : CrawlState) : Step → CrawlState
  | Step.peer a => explore_peer env a st
  | Step.node a => explore_node env a st

/-- Execute a sequence of calls. -/
def runSteps (env : Env) (steps : List Step) (st : CrawlState) : CrawlState :=
  steps.foldl (runStep env) st

/-! ### Reference definitions and concrete scenario environments -/

/-- Key lookup as the spec reads a response: a field of a JSON object,
absent for anything else. -/
def claimLookup (j : Json) (k : String) : Option Json :=
  match j with
  | Json.obj fs => lookupJ fs k
  | _ => none

/-- The spec's description of `get_version`, stated in its words for
comparison with the code: "Accepts a version in either a top-level field or
nested under an application sub-object in the response; if absent, reports
version as the literal string Unknown rather than failing." -/
def get_version_claim (resp : Json) : Json :=
  match claimLookup resp "version" with
  | some v => v
  | none =>
    match claimLookup resp "application" with
    | some app =>
      match claimLookup app "version" with
      | some v => v
      | none => Json.str "Unknown"
    | none => Json.str "Unknown"

/-- Split a character list at every dot (Python `s.split(".")`). -/
def splitDots : List Char → List (List Char)
  | [] => [[]]
  | x :: xs =>
    if x == '.' then [] :: splitDots xs
    else
      match splitDots xs with
      | g :: gs => (x :: g) :: gs
      | [] => [[x]]

/-- The numeric value of a digit group. -/
def digitsVal (g : List Char) : Nat :=
  g.foldl (fun n c => 10 * n + (c.toNat - 48)) 0

/-- A dotted IPv4 literal: four nonempty all-digit groups, each at most
255.  `socket.gethostbyname` returns such an address unchanged without a
DNS query; the hypothesis `∀ s, isDottedQuad s = true → dns s = some s`
models that behaviour of the resolution collaborator. -/
def isDottedQuad (s : String) : Bool :=
  let gs := splitDots s.toList
  gs.length == 4 &&
    gs.all (fun g => !g.isEmpty && g.all Char.isDigit && decide (digitsVal g ≤ 255))

/-- A resolver with exactly the numeric-address behaviour of
`socket.gethostbyname` and no other successes. -/
def dnsQuad : String → Option String :=
  fun s => if isDottedQuad s then some s else none

/-- A successful JSON-object response. -/
def okResp (fs : List (String × Json)) : HttpOutcome :=
  HttpOutcome.resp 200 (some (Json.obj fs))

/-- A world in which every request raises (e.g. times out). -/
def envX : Env :=
  { peersResp := fun _ => HttpOutcome.exn,
    infoResp := fun _ => HttpOutcome.exn,
    dns := fun _ => none,
    geoResp := fun _ => HttpOutcome.exn }

/-- A world with the single reachable node `"a"`, which reports no peers
and version `"3.8.4"`; name resolution fails everywhere. -/
def env0 : Env :=
  { peersResp := fun a => if a = "a" then okResp [("peers", Json.arr [])] else HttpOutcome.exn,
    infoResp := fun a =>
      if a = "a" then okResp [("version", Json.str "3.8.4")] else HttpOutcome.exn,
    dns := fun _ => none,
    geoResp := fun _ => HttpOutcome.exn }

/-- The spec's three-node scenario: `"a"` reports peers `["b", "c"]`,
`"b"` and `"c"` each report `["a"]`, all with version `"3.8.4"`. -/
def env3 : Env :=
  { peersResp := fun a =>
      if a = "a" then okResp [("peers", Json.arr [Json.str "b", Json.str "c"])]
      else if a = "b" then okResp [("peers", Json.arr [Json.str "a"])]
      else if a = "c" then okResp [("peers", Json.arr [Json.str "a"])]
      else HttpOutcome.exn,
    infoResp := fun a =>
      if a = "a" ∨ a = "b" ∨ a = "c" then okResp [("version", Json.str "3.8.4")]
      else HttpOutcome.exn,
    dns := fun _ => none,
    geoResp := fun _ => HttpOutcome.exn }

/-- A world where every node responds with no peers and version `"3.8.4"`
but no hostname resolves. -/
def envW : Env :=
  { peersResp := fun _ => okResp [("peers", Json.arr [])],
    infoResp := fun _ => okResp [("version", Json.str "3.8.4")],
    dns := fun _ => none,
    geoResp := fun _ => HttpOutcome.exn }



/-- Growth ordering on crawl states: the Visited Registry, the keys of the
Topology Record and the Frontier only gain members. -/
def StateLE (s t : CrawlState) : Prop :=
  s.checked_addresses ⊆ t.checked_addresses ∧
  keys s.updates ⊆ keys t.updates ∧
  s.peers_to_explore ⊆ t.peers_to_explore

/-- The instrumentation invariant: no address was queried twice, and every
queried address is in the Visited Registry. -/
def TraceInv (st : CrawlState) : Prop :=
  st.trace.Nodup ∧ ∀ x ∈ st.trace, x ∈ st.checked_addresses

/-- Every key of the Topology Record is in the Visited Registry. -/
def KeysInv (st : CrawlState) : Prop :=
  ∀ x ∈ keys st.updates, x ∈ st.checked_addresses

/-- The Visited Registry and the Frontier stay inside the address universe
`U`. -/
def ClosedIn (U : Finset String) (st : CrawlState) : Prop :=
  (∀ x ∈ st.checked_addresses, x ∈ U) ∧ ∀ x ∈ st.peers_to_explore, x ∈ U

/-! ### Helper lemmas about the set operations -/

theorem mem_insertS_self (l : List String) (a : String) : a ∈ insertS l a := by
  unfold insertS
  by_cases h : a ∈ l
  · simp only [if_pos h]
    exact h
  · simp [h]

theorem subset_insertS (l : List String) (a : String) : l ⊆ insertS l a := by
  unfold insertS
  by_cases h : a ∈ l
  · simp [h]
  · intro x hx
    simp [h, hx]

theorem mem_insertS {l : List String} {a x : String} :
    x ∈ insertS l a ↔ x ∈ l ∨ x = a := by
  unfold insertS
  by_cases h : a ∈ l
  · simp only [if_pos h]
    constructor
    · exact Or.inl
    · rintro (hx | rfl)
      · exact hx
      · exact h
  · simp [h]

theorem subset_updateS (l : List String) (xs : List String) : l ⊆ updateS l xs := by
  induction xs generalizing l with
  | nil => exact fun x hx => hx
  | cons y ys ih =>
    intro x hx
    exact ih (insertS l y) (subset_insertS l y hx)

theorem mem_updateS {l xs : List String} {x : String} :
    x ∈ updateS l xs ↔ x ∈ l ∨ x ∈ xs := by
  induction xs generalizing l with
  | nil => simp [updateS]
  | cons y ys ih =>
    show x ∈ updateS (insertS l y) ys ↔ _
    rw [ih]
    rw [mem_insertS]
    constructor
    · rintro ((hx | rfl) | hx)
      · exact Or.inl hx
      · exact Or.inr (by simp)
      · exact Or.inr (by simp [hx])
    · rintro (hx | hx)
      · exact Or.inl (Or.inl hx)
      · rcases List.mem_cons.1 hx with rfl | hx
        · exact Or.inl (Or.inr rfl)
        · exact Or.inr hx

/-! ### Generic fold lemmas -/

theorem foldl_preserve {α β : Type} {f : β → α → β} {P : β → Prop}
    (hf : ∀ b a, P b → P (f b a)) :
    ∀ (l : List α) (b : β), P b → P (List.foldl f b l) := by
  intro l
  induction l with
  | nil => exact fun b hb => hb
  | cons a as ih => exact fun b hb => ih (f b a) (hf b a hb)

theorem foldl_rel {α β : Type} {f : β → α → β} {R : β → β → Prop}
    (hrefl : ∀ b, R b b) (htrans : ∀ {x y z}, R x y → R y z → R x z)
    (hf : ∀ b a, R b (f b a)) :
    ∀ (l : List α) (b : β), R b (List.foldl f b l) := by
  intro l
  induction l with
  | nil => exact fun b => hrefl b
  | cons a as ih => exact fun b => htrans (hf b a) (ih (f b a))

/-! ### Shape lemmas for the exploration functions -/

theorem explore_peer_guard {env : Env} {a : String} {st : CrawlState}
    (h : a ∈ keys st.updates ∨ a ∈ st.checked_addresses) :
    explore_peer env a st = st := by
  unfold explore_peer
  rw [if_pos h]

theorem explore_node_guard {env : Env} {a : String} {st : CrawlState}
    (h : a ∈ st.checked_addresses) :
    explore_node env a st = st := by
  unfold explore_node
  rw [if_pos h]

theorem explore_peer_shape (env : Env) (a : String) (st : CrawlState)
    (h : ¬(a ∈ keys st.updates ∨ a ∈ st.checked_addresses)) :
    (explore_peer env a st).checked_addresses = insertS st.checked_addresses a ∧
    (explore_peer env a st).trace = st.trace ++ [a] ∧
    (∃ tail, (explore_peer env a st).updates = st.updates ++ tail ∧ keys tail ⊆ [a]) ∧
    st.peers_to_explore ⊆ (explore_peer env a st).peers_to_explore ∧
    (explore_peer env a st).peers_to_explore ⊆
      updateS st.peers_to_explore (queryPeers env a) := by
  unfold explore_peer
  rw [if_neg h]
  cases hq : env.query a with
  | raise =>
    refine ⟨rfl, rfl, ⟨[(a, none)], rfl, ?_⟩, fun x hx => hx, ?_⟩
    · intro x hx
      simpa [keys] using hx
    · exact subset_updateS _ _
  | ok peers version =>
    cases hg : (match get_ip_by_domain env.dns a with
        | some i => get_geo_info (env.geoResp i)
        | none => Except.ok geoDefault) with
    | error e =>
      simp only [hg]
      refine ⟨?_, ?_, ⟨[], ?_, ?_⟩, ?_, ?_⟩
      · trivial
      · trivial
      · simp
      · simp [keys]
      · exact subset_updateS _ _
      · simp only [queryPeers, hq]
        exact List.Subset.refl _
    | ok g =>
      simp only [hg]
      refine ⟨?_, ?_,
        ⟨[(a, some { announced_address := a, real_ip := get_ip_by_domain env.dns a,
                     country_code := g.country_code, latitude := g.latitude,
                     longitude := g.longitude, version := version, peers := peers })],
         ?_, ?_⟩, ?_, ?_⟩
      · trivial
      · trivial
      · rfl
      · intro x hx
        simpa [keys] using hx
      · exact subset_updateS _ _
      · simp only [queryPeers, hq]
        exact List.Subset.refl _

/-! ### Monotonicity of the registries -/

theorem keys_append (u v : List (String × Option PeerRec)) :
    keys (u ++ v) = keys u ++ keys v := by
  simp [keys]

theorem StateLE_refl (s : CrawlState) : StateLE s s :=
  ⟨List.Subset.refl _, List.Subset.refl _, List.Subset.refl _⟩

theorem StateLE_trans {s t u : CrawlState} (h1 : StateLE s t) (h2 : StateLE t u) :
    StateLE s u :=
  ⟨h1.1.trans h2.1, h1.2.1.trans h2.2.1, h1.2.2.trans h2.2.2⟩

theorem explore_peer_le (env : Env) (a : String) (st : CrawlState) :
    StateLE st (explore_peer env a st) := by
  by_cases h : a ∈ keys st.updates ∨ a ∈ st.checked_addresses
  · rw [explore_peer_guard h]
    exact StateLE_refl st
  · obtain ⟨hc, _, ⟨tail, hu, _⟩, hp, _⟩ := explore_peer_shape env a st h
    refine ⟨?_, ?_, hp⟩
    · rw [hc]
      exact subset_insertS _ _
    · rw [hu, keys_append]
      exact List.subset_append_left _ _

theorem explore_node_le (env : Env) (a : String) (st : CrawlState) :
    StateLE st (explore_node env a st) := by
  by_cases h : a ∈ st.checked_addresses
  · rw [explore_node_guard h]
    exact StateLE_refl st
  · unfold explore_node
    rw [if_neg h]
    cases hq : env.query a with
    | raise => exact ⟨subset_insertS _ _, List.Subset.refl _, List.Subset.refl _⟩
    | ok peers version =>
      refine StateLE_trans (t := explore_peer env a { st with
          checked_addresses := insertS st.checked_addresses a,
          trace := st.trace ++ [a],
          peers_to_explore := updateS st.peers_to_explore peers }) ?_ ?_
      · refine StateLE_trans (t := { st with
            checked_addresses := insertS st.checked_addresses a,
            trace := st.trace ++ [a],
            peers_to_explore := updateS st.peers_to_explore peers })
          ⟨subset_insertS _ _, List.Subset.refl _, subset_updateS _ peers⟩
          (explore_peer_le env a _)
      · exact foldl_rel StateLE_refl StateLE_trans (fun b p => explore_peer_le env p b) peers _

theorem runLayer_le (env : Env) (st : CrawlState) (addrs : List String) :
    StateLE st (runLayer env st addrs) :=
  foldl_rel StateLE_refl StateLE_trans (fun b a => explore_node_le env a b) addrs st

/-! ### Preservation of the instrumentation and registry invariants -/

theorem traceInv_extend {st : CrawlState} {a : String} (h : TraceInv st)
    (ha : a ∉ st.checked_addresses) :
    TraceInv { st with checked_addresses := insertS st.checked_addresses a,
                       trace := st.trace ++ [a] } := by
  have hat : a ∉ st.trace := fun hx => ha (h.2 a hx)
  constructor
  · simp only [List.nodup_append, List.nodup_singleton, true_and]
    exact ⟨h.1, by simpa [List.disjoint_singleton] using hat⟩
  · intro x hx
    rcases List.mem_append.1 hx with hx | hx
    · exact subset_insertS _ _ (h.2 x hx)
    · rcases List.mem_singleton.1 hx with rfl
      exact mem_insertS_self _ _

theorem explore_peer_trace (env : Env) (a : String) (st : CrawlState)
    (h : TraceInv st) : TraceInv (explore_peer env a st) := by
  by_cases hg : a ∈ keys st.updates ∨ a ∈ st.checked_addresses
  · rw [explore_peer_guard hg]
    exact h
  · obtain ⟨hc, ht, _, _, _⟩ := explore_peer_shape env a st hg
    have ha : a ∉ st.checked_addresses := fun hx => hg (Or.inr hx)
    have h1 := traceInv_extend h ha
    exact ⟨by rw [ht]; exact h1.1, by rw [ht, hc]; exact h1.2⟩

theorem explore_node_trace (env : Env) (a : String) (st : CrawlState)
    (h : TraceInv st) : TraceInv (explore_node env a st) := by
  by_cases hc : a ∈ st.checked_addresses
  · rw [explore_node_guard hc]
    exact h
  · unfold explore_node
    rw [if_neg hc]
    have h1 := traceInv_extend h hc
    cases hq : env.query a with
    | raise => exact h1
    | ok peers version =>
      refine foldl_preserve (fun b p hb => explore_peer_trace env p b hb) peers _ ?_
      exact explore_peer_trace env a _ h1

theorem explore_peer_keys (env : Env) (a : String) (st : CrawlState)
    (h : KeysInv st) : KeysInv (explore_peer env a st) := by
  by_cases hg : a ∈ keys st.updates ∨ a ∈ st.checked_addresses
  · rw [explore_peer_guard hg]
    exact h
  · obtain ⟨hc, _, ⟨tail, hu, htail⟩, _, _⟩ := explore_peer_shape env a st hg
    intro x hx
    rw [hu, keys_append] at hx
    rw [hc]
    rcases List.mem_append.1 hx with hx | hx
    · exact subset_insertS _ _ (h x hx)
    · rcases List.mem_singleton.1 (htail hx) with rfl
      exact mem_insertS_self _ _

theorem explore_node_keys (env : Env) (a : String) (st : CrawlState)
    (h : KeysInv st) : KeysInv (explore_node env a st) := by
  by_cases hc : a ∈ st.checked_addresses
  · rw [explore_node_guard hc]
    exact h
  · unfold explore_node
    rw [if_neg hc]
    have h1 : KeysInv { st with checked_addresses := insertS st.checked_addresses a,
                                trace := st.trace ++ [a] } :=
      fun x hx => subset_insertS _ _ (h x hx)
    cases hq : env.query a with
    | raise => exact h1
    | ok peers version =>
      refine foldl_preserve (fun b p hb => explore_peer_keys env p b hb) peers _ ?_
      exact explore_peer_keys env a _ h1

theorem runLoop_preserve {env : Env} {P : CrawlState → Prop}
    (hnode : ∀ st a, P st → P (explore_node env a st))
    (hclear : ∀ st, P st → P { st with peers_to_explore := ([] : List String) }) :
    ∀ (fuel : Nat) (st : CrawlState), P st → P (runLoop env fuel st) := by
  intro fuel
  induction fuel with
  | zero => exact fun st h => h
  | succ n ih =>
    intro st h
    unfold runLoop
    cases he : st.peers_to_explore.isEmpty
    · simp only [Bool.false_eq_true, if_false]
      refine ih _ ?_
      exact foldl_preserve (fun b a hb => hnode b a hb) st.peers_to_explore _ (hclear st h)
    · simp only [if_true]
      exact h

/-! ### Growth and closure: the layer loop makes progress -/

theorem foldl_preserve_mem {α β : Type} {f : β → α → β} {P : β → Prop} {Q : α → Prop}
    (hf : ∀ b a, Q a → P b → P (f b a)) :
    ∀ (l : List α), (∀ a ∈ l, Q a) → ∀ (b : β), P b → P (List.foldl f b l) := by
  intro l
  induction l with
  | nil => exact fun _ b hb => hb
  | cons a as ih =>
    intro hl b hb
    exact ih (fun x hx => hl x (List.mem_cons_of_mem a hx)) (f b a)
      (hf b a (hl a (List.mem_cons_self a as)) hb)

theorem explore_node_growth (env : Env) (a : String) (st : CrawlState) :
    explore_node env a st = st ∨
    ∃ x, x ∉ st.checked_addresses ∧ x ∈ (explore_node env a st).checked_addresses := by
  by_cases h : a ∈ st.checked_addresses
  · exact Or.inl (explore_node_guard h)
  · refine Or.inr ⟨a, h, ?_⟩
    unfold explore_node
    rw [if_neg h]
    cases hq : env.query a with
    | raise => exact mem_insertS_self _ _
    | ok peers version =>
      have hmem : a ∈ (explore_peer env a { st with
          checked_addresses := insertS st.checked_addresses a,
          trace := st.trace ++ [a],
          peers_to_explore := updateS st.peers_to_explore peers }).checked_addresses :=
        (explore_peer_le env a _).1 (mem_insertS_self _ _)
      exact (foldl_rel StateLE_refl StateLE_trans
        (fun b p => explore_peer_le env p b) peers _).1 hmem

theorem runLayer_growth (env : Env) (addrs : List String) (st : CrawlState) :
    runLayer env st addrs = st ∨
    ∃ x, x ∉ st.checked_addresses ∧ x ∈ (runLayer env st addrs).checked_addresses := by
  induction addrs generalizing st with
  | nil => exact Or.inl rfl
  | cons a as ih =>
    show runLayer env (explore_node env a st) as = st ∨
      ∃ x, x ∉ st.checked_addresses ∧
        x ∈ (runLayer env (explore_node env a st) as).checked_addresses
    rcases explore_node_growth env a st with heq | ⟨x, hx1, hx2⟩
    · rw [heq]
      exact ih st
    · exact Or.inr ⟨x, hx1, (runLayer_le env _ as).1 hx2⟩

theorem explore_peer_closed (env : Env) (U : Finset String)
    (hq : ∀ b p, p ∈ queryPeers env b → p ∈ U) (a : String) (st : CrawlState)
    (ha : a ∈ U) (h : ClosedIn U st) : ClosedIn U (explore_peer env a st) := by
  by_cases hgd : a ∈ keys st.updates ∨ a ∈ st.checked_addresses
  · rw [explore_peer_guard hgd]
    exact h
  · obtain ⟨hc, _, _, _, hub⟩ := explore_peer_shape env a st hgd
    constructor
    · intro x hx
      rw [hc] at hx
      rcases mem_insertS.1 hx with hx | rfl
      · exact h.1 x hx
      · exact ha
    · intro x hx
      rcases mem_updateS.1 (hub hx) with hx | hx
      · exact h.2 x hx
      · exact hq a x hx

theorem explore_node_closed (env : Env) (U : Finset String)
    (hq : ∀ b p, p ∈ queryPeers env b → p ∈ U) (a : String) (st : CrawlState)
    (ha : a ∈ U) (h : ClosedIn U st) : ClosedIn U (explore_node env a st) := by
  by_cases hcm : a ∈ st.checked_addresses
  · rw [explore_node_guard hcm]
    exact h
  · unfold explore_node
    rw [if_neg hcm]
    have h1 : ClosedIn U { st with checked_addresses := insertS st.checked_addresses a,
                                   trace := st.trace ++ [a] } := by
      refine ⟨?_, h.2⟩
      intro x hx
      rcases mem_insertS.1 hx with hx | rfl
      · exact h.1 x hx
      · exact ha
    cases hqa : env.query a with
    | raise => exact h1
    | ok peers version =>
      have hpeers : ∀ p ∈ peers, p ∈ U := by
        intro p hp
        exact hq a p (by simp [queryPeers, hqa, hp])
      have h2 : ClosedIn U { st with checked_addresses := insertS st.checked_addresses a,
                                     trace := st.trace ++ [a],
                                     peers_to_explore := updateS st.peers_to_explore peers } := by
        refine ⟨h1.1, ?_⟩
        intro x hx
        rcases mem_updateS.1 hx with hx | hx
        · exact h.2 x hx
        · exact hpeers x hx
      refine foldl_preserve_mem (Q := fun p => p ∈ U)
        (fun b p hp hb => explore_peer_closed env U hq p b hp hb) peers hpeers _ ?_
      exact explore_peer_closed env U hq a _ ha h2

theorem runLayer_closed (env : Env) (U : Finset String)
    (hq : ∀ b p, p ∈ queryPeers env b → p ∈ U) (addrs : List String)
    (haddrs : ∀ a ∈ addrs, a ∈ U) (st : CrawlState) (h : ClosedIn U st) :
    ClosedIn U (runLayer env st addrs) :=
  foldl_preserve_mem (Q := fun a => a ∈ U)
    (fun b a hb ha => explore_node_closed env U hq a b hb ha) addrs haddrs st h

theorem runLoop_step (env : Env) (st : CrawlState) (n : Nat)
    (he : st.peers_to_explore ≠ []) :
    runLoop env (n + 1) st =
      runLoop env n (runLayer env { st with peers_to_explore := ([] : List String) }
        st.peers_to_explore) := by
  show (if st.peers_to_explore.isEmpty then st else _) = _
  rw [if_neg (by simp [List.isEmpty_iff, he])]

theorem runLoop_term (env : Env) (U : Finset String)
    (hq : ∀ b p, p ∈ queryPeers env b → p ∈ U) :
    ∀ (k : Nat) (st : CrawlState),
      (U.filter (fun a => a ∉ st.checked_addresses)).card ≤ k →
      ClosedIn U st → ∃ n, (runLoop env n st).peers_to_explore = [] := by
  intro k
  induction k with
  | zero =>
    intro st hk hcl
    by_cases he : st.peers_to_explore = []
    · exact ⟨0, he⟩
    · have hclear : ClosedIn U { st with peers_to_explore := ([] : List String) } :=
        ⟨hcl.1, fun x hx => absurd hx (List.not_mem_nil x)⟩
      have hcl' := runLayer_closed env U hq st.peers_to_explore hcl.2 _ hclear
      rcases runLayer_growth env st.peers_to_explore
          { st with peers_to_explore := ([] : List String) } with heq | ⟨x, hx1, hx2⟩
      · refine ⟨1, ?_⟩
        rw [runLoop_step env st 0 he, heq]
        rfl
      · exfalso
        have hxU : x ∈ U := hcl'.1 x hx2
        have hmem : x ∈ U.filter (fun a => a ∉ st.checked_addresses) :=
          Finset.mem_filter.2 ⟨hxU, hx1⟩
        have hpos : 0 < (U.filter (fun a => a ∉ st.checked_addresses)).card :=
          Finset.card_pos.2 ⟨x, hmem⟩
        omega
  | succ k ih =>
    intro st hk hcl
    by_cases he : st.peers_to_explore = []
    · exact ⟨0, he⟩
    · have hclear : ClosedIn U { st with peers_to_explore := ([] : List String) } :=
        ⟨hcl.1, fun x hx => absurd hx (List.not_mem_nil x)⟩
      have hcl' := runLayer_closed env U hq st.peers_to_explore hcl.2 _ hclear
      by_cases hf : (runLayer env { st with peers_to_explore := ([] : List String) }
          st.peers_to_explore).peers_to_explore = []
      · refine ⟨1, ?_⟩
        rw [runLoop_step env st 0 he]
        exact hf
      · rcases runLayer_growth env st.peers_to_explore
            { st with peers_to_explore := ([] : List String) } with heq | ⟨x, hx1, hx2⟩
        · exact absurd (by rw [heq]) hf
        · have hxU : x ∈ U := hcl'.1 x hx2
          have hsub : U.filter (fun a => a ∉ (runLayer env
                { st with peers_to_explore := ([] : List String) }
                st.peers_to_explore).checked_addresses) ⊆
              U.filter (fun a => a ∉ st.checked_addresses) := by
            intro y hy
            rcases Finset.mem_filter.1 hy with ⟨hyU, hyc⟩
            refine Finset.mem_filter.2 ⟨hyU, fun hyst => hyc ?_⟩
            exact (runLayer_le env _ _).1 hyst
          have hss := (Finset.ssubset_iff_of_subset hsub).2
            ⟨x, Finset.mem_filter.2 ⟨hxU, hx1⟩,
             fun hmem => (Finset.mem_filter.1 hmem).2 hx2⟩
          have hlt := Finset.card_lt_card hss
          rcases ih _ (by omega) hcl' with ⟨n, hn⟩
          refine ⟨n + 1, ?_⟩
          rw [runLoop_step env st n he]
          exact hn

/-! ### The key test against the key lookup -/

theorem any_key_eq (fs : List (String × Json)) (k : String) :
    fs.any (fun kv => kv.1 == k) = (lookupJ fs k).isSome := by
  induction fs with
  | nil => rfl
  | cons kv fs ih =>
    simp only [List.any_cons, lookupJ, List.find?]
    cases h : (kv.1 == k)
    · simpa [h, lookupJ] using ih
    · simp [h]

theorem pyIndex_of_lookup {fs : List (String × Json)} {k : String} {v : Json}
    (h : lookupJ fs k = some v) : pyIndex (Json.obj fs) k = Except.ok v := by
  simp [pyIndex, h]

/-- C9: on an unreachable or garbage-sending node — any request that raises
a `requests` exception (transport failure or a 4xx/5xx status, which
`raise_for_status` turns into one) or returns a non-parseable body —
`_request` returns the empty dict, so `get_peers` returns the empty list
and `get_version` returns `"Unknown"`, signalling no failure to the
caller. -/
theorem client_failure_collapse (o : HttpOutcome)
    (h : o = HttpOutcome.exn ∨
         (∃ status body, o = HttpOutcome.resp status body ∧ statusRaises status = true) ∨
         (∃ status, o = HttpOutcome.resp status none)) :
    P2PApi._request o = Json.obj [] ∧
    P2PApi.get_peers (P2PApi._request o) = Except.ok (Json.arr []) ∧
    P2PApi.get_version (P2PApi._request o) = Except.ok (Json.str "Unknown") := by
  have hreq : P2PApi._request o = Json.obj [] := by
    rcases h with rfl | ⟨s, b, rfl, hs⟩ | ⟨s, rfl⟩
    · rfl
    · simp [P2PApi._request, hs]
    · simp only [P2PApi._request]
      cases hs : statusRaises s <;> simp [hs]
  rw [hreq]
  exact ⟨rfl, rfl, rfl⟩

/-- Witness for C9 at a concrete failing request (a raised exception). -/
theorem client_failure_collapse_witness :
    P2PApi._request HttpOutcome.exn = Json.obj [] ∧
    P2PApi.get_peers (P2PApi._request HttpOutcome.exn) = Except.ok (Json.arr []) ∧
    P2PApi.get_version (P2PApi._request HttpOutcome.exn) = Except.ok (Json.str "Unknown") :=
  client_failure_collapse HttpOutcome.exn (Or.inl rfl)

/-- C6 counterexample: a getInfo response whose `"application"` member is
not a container has no version anywhere, yet `get_version` raises a
TypeError (Python: `"version" in 5`) instead of returning `"Unknown"` as
the claim states for every response. -/
theorem get_version_counterexample :
    P2PApi.get_version (Json.obj [("application", Json.num 5)]) = Except.error () ∧
    get_version_claim (Json.obj [("application", Json.num 5)]) = Json.str "Unknown" :=
  ⟨rfl, rfl⟩

/-- C6 (amended): for a getInfo response that is a JSON object and whose
`"application"` member — when it is consulted, i.e. when there is no
top-level `"version"` — is itself a JSON object, `get_version` returns
exactly what the spec describes: the top-level version, else the nested
version, else the literal `"Unknown"`, without failing. -/
theorem get_version_spec_on_objects (fs : List (String × Json))
    (happ : lookupJ fs "version" = none →
      ∀ app, lookupJ fs "application" = some app → ∃ gs, app = Json.obj gs) :
    P2PApi.get_version (Json.obj fs) =
      Except.ok (get_version_claim (Json.obj fs)) := by
  simp only [P2PApi.get_version, pyContains, bind, Except.bind]
  cases hv : (lookupJ fs "version") with
  | some v =>
    rw [show fs.any (fun kv => kv.1 == "version") = true by
      rw [any_key_eq, hv]; rfl]
    simp only [if_true]
    rw [pyIndex_of_lookup hv]
    simp [get_version_claim, claimLookup, hv]
  | none =>
    rw [show fs.any (fun kv => kv.1 == "version") = false by
      rw [any_key_eq, hv]; rfl]
    simp only [Bool.false_eq_true, if_false]
    cases ha : (lookupJ fs "application") with
    | none =>
      rw [show fs.any (fun kv => kv.1 == "application") = false by
        rw [any_key_eq, ha]; rfl]
      simp [get_version_claim, claimLookup, hv, ha, pure, Except.pure]
    | some app =>
      rw [show fs.any (fun kv => kv.1 == "application") = true by
        rw [any_key_eq, ha]; rfl]
      simp only [if_true]
      rw [pyIndex_of_lookup ha]
      obtain ⟨gs, rfl⟩ := happ hv app ha
      simp only [Except.bind]
      cases hgv : (lookupJ gs "version") with
      | some w =>
        rw [show gs.any (fun kv => kv.1 == "version") = true by
          rw [any_key_eq, hgv]; rfl]
        simp only [if_true]
        rw [pyIndex_of_lookup hgv]
        simp [get_version_claim, claimLookup, hv, ha, hgv, pure, Except.pure]
      | none =>
        rw [show gs.any (fun kv => kv.1 == "version") = false by
          rw [any_key_eq, hgv]; rfl]
        simp [get_version_claim, claimLookup, hv, ha, hgv, pure, Except.pure]

/-- Witness for C6 at a concrete response carrying a nested version. -/
theorem get_version_spec_on_objects_witness :
    P2PApi.get_version (Json.obj [("application", Json.obj [("version", Json.str "3.8.4")])]) =
      Except.ok (get_version_claim
        (Json.obj [("application", Json.obj [("version", Json.str "3.8.4")])])) := by
  refine get_version_spec_on_objects _ ?_
  intro _ app hap
  refine ⟨[("version", Json.str "3.8.4")], ?_⟩
  have : some (Json.obj [("version", Json.str "3.8.4")]) = some app := by
    rw [← hap]; rfl
  exact (Option.some.inj this).symm

/-- C8: every geo-lookup failure the code meets — a raised request
exception, a 4xx/5xx status, an unparseable body, or an object body with a
missing field — degrades to the `"??"`/absent-coordinates default instead
of propagating; and the geo lookup is consulted only when a resolved IP
exists: with no resolved IP, `explore_peer` does not depend on the geo
collaborator at all. -/
theorem geo_failures_degrade (status : Nat) (body : Option Json)
    (fs : List (String × Json)) (pr ir : String → HttpOutcome)
    (dns : String → Option String) (g1 g2 : String → HttpOutcome)
    (a : String) (st : CrawlState) :
    get_geo_info HttpOutcome.exn = Except.ok geoDefault ∧
    (statusRaises status = true →
      get_geo_info (HttpOutcome.resp status body) = Except.ok geoDefault) ∧
    get_geo_info (HttpOutcome.resp status none) = Except.ok geoDefault ∧
    (lookupJ fs "country_code" = none ∨ lookupJ fs "latitude" = none ∨
        lookupJ fs "longitude" = none →
      get_geo_info (HttpOutcome.resp status (some (Json.obj fs))) = Except.ok geoDefault) ∧
    (get_ip_by_domain dns a = none →
      explore_peer { peersResp := pr, infoResp := ir, dns := dns, geoResp := g1 } a st =
      explore_peer { peersResp := pr, infoResp := ir, dns := dns, geoResp := g2 } a st) := by
  refine ⟨rfl, ?_, ?_, ?_, ?_⟩
  · intro hs
    simp [get_geo_info, hs]
  · simp only [get_geo_info]
    cases hs : statusRaises status <;> simp [hs]
  · intro h
    simp only [get_geo_info]
    cases hs : statusRaises status
    · simp only [Bool.false_eq_true, if_false]
      rcases hl1 : lookupJ fs "country_code" with _ | cc <;>
        rcases hl2 : lookupJ fs "latitude" with _ | la <;>
          rcases hl3 : lookupJ fs "longitude" with _ | lo <;>
            simp_all
    · simp
  · intro hip
    simp only [explore_peer, Env.query, nodeQuery, hip]

/-- C7 counterexample: for the dotted IPv4 address "1.2.3.4" the result of
`get_ip_by_domain` is exactly whatever `socket.gethostbyname` returns — a
lookup is performed, and with a resolver that does not echo the literal
(contrary to the claim's "returned as-is without performing a lookup") the
result is not the IP itself. -/
theorem get_ip_counterexample :
    get_ip_by_domain (fun _ => none) "1.2.3.4" = none ∧
    get_ip_by_domain (fun _ => some "9.9.9.9") "1.2.3.4" = some "9.9.9.9" :=
  ⟨rfl, rfl⟩

/-- C7 (amended): a hostname containing a colon (a bracketed IPv6 literal)
is returned as-is without consulting the resolver (the result is the same
under every resolver); any other hostname — dotted IPv4 literals included —
is handed to `socket.gethostbyname`, which returns a dotted-quad literal
unchanged, so the observable result for a literal IP is still the IP
itself; resolver failure yields no resolved IP, and the PeerRecord is
still produced, with an absent IP and the default geo fields. -/
theorem get_ip_by_domain_spec (dns dns2 : String → Option String) (peer h : String)
    (ps : List String) (v : Json) (pr ir geoR : String → HttpOutcome) (a : String)
    (st : CrawlState) :
    (hostnameOf (ensureHttp peer) = some h → h.toList.any (fun c => c == ':') = true →
      get_ip_by_domain dns peer = some h ∧ get_ip_by_domain dns2 peer = some h) ∧
    (hostnameOf (ensureHttp peer) = some h → h.toList.any (fun c => c == ':') = false →
      get_ip_by_domain dns peer = dns h) ∧
    ((∀ s, isDottedQuad s = true → dns s = some s) →
      hostnameOf (ensureHttp peer) = some h → h.toList.any (fun c => c == ':') = false →
      isDottedQuad h = true → get_ip_by_domain dns peer = some h) ∧
    (Env.query { peersResp := pr, infoResp := ir, dns := dns, geoResp := geoR } a =
        QueryResult.ok ps v →
      ¬(a ∈ keys st.updates ∨ a ∈ st.checked_addresses) →
      get_ip_by_domain dns a = none →
      (explore_peer { peersResp := pr, infoResp := ir, dns := dns, geoResp := geoR } a
          st).updates =
        st.updates ++ [(a, some { announced_address := a, real_ip := none,
                                  country_code := Json.str "??", latitude := Json.null,
                                  longitude := Json.null, version := v,
                                  peers := ps })]) := by
  refine ⟨?_, ?_, ?_, ?_⟩
  · intro hh hc
    unfold get_ip_by_domain
    simp only [hh]
    rw [hc]
    simp
  · intro hh hc
    unfold get_ip_by_domain
    simp only [hh]
    rw [hc]
    simp
  · intro hdq hh hc hq
    unfold get_ip_by_domain
    simp only [hh]
    rw [hc]
    simp only [Bool.false_eq_true, if_false]
    exact hdq h hq
  · intro hq hg hip
    unfold explore_peer
    rw [if_neg hg, hq]
    simp only [hip]
    rfl

/-- Witness for C7: a bracketed IPv6 literal, a dotted IPv4 literal under
the gethostbyname-faithful resolver, and a PeerRecord produced despite
resolution failure. -/
theorem get_ip_by_domain_spec_witness :
    get_ip_by_domain dnsQuad "[::1]:8123" = some "::1" ∧
    get_ip_by_domain dnsQuad "1.2.3.4" = some "1.2.3.4" ∧
    (explore_peer envW "w" initState).updates =
      [("w", some { announced_address := "w", real_ip := none,
                    country_code := Json.str "??", latitude := Json.null,
                    longitude := Json.null, version := Json.str "3.8.4",
                    peers := [] })] := by
  refine ⟨?_, ?_, ?_⟩
  · exact ((get_ip_by_domain_spec dnsQuad dnsQuad "[::1]:8123" "::1" [] Json.null
      envW.peersResp envW.infoResp envW.geoResp "w" initState).1 rfl rfl).1
  · exact (get_ip_by_domain_spec dnsQuad dnsQuad "1.2.3.4" "1.2.3.4" [] Json.null
      envW.peersResp envW.infoResp envW.geoResp "w" initState).2.2.1
      (fun s hs => by simp [dnsQuad, hs]) rfl rfl rfl
  · exact (get_ip_by_domain_spec envW.dns envW.dns "w" "w" [] (Json.str "3.8.4")
      envW.peersResp envW.infoResp envW.geoResp "w" initState).2.2.2
      rfl (by simp [keys, initState]) rfl

/-- C1: over any interleaving-free sequence of `explore_peer` /
`explore_node` calls from the empty state — and over the whole `main`
crawl — the Peer RPC Client is invoked at most once per address: the query
trace has no duplicate.  Each function returns without querying when the
address is already in `checked_addresses` (or, for `explore_peer`, in
`updates`), and every query is preceded by adding the address to
`checked_addresses`. -/
theorem query_at_most_once (env : Env) (steps : List Step)
    (bootstrap : List String) (fuel : Nat) :
    (runSteps env steps initState).trace.Nodup ∧
    (mainCrawl env bootstrap fuel).trace.Nodup := by
  have hstep : ∀ (st : CrawlState) (s : Step), TraceInv st → TraceInv (runStep env st s) := by
    intro st s h
    cases s with
    | peer a => exact explore_peer_trace env a st h
    | node a => exact explore_node_trace env a st h
  have hinit : TraceInv initState :=
    ⟨List.nodup_nil, fun x hx => absurd hx (List.not_mem_nil x)⟩
  constructor
  · exact (foldl_preserve hstep steps initState hinit).1
  · have hl : TraceInv (runLayer env initState bootstrap) :=
      foldl_preserve (fun b a hb => explore_node_trace env a b hb) bootstrap initState hinit
    exact (runLoop_preserve (fun st a h => explore_node_trace env a st h)
      (fun st h => ⟨h.1, h.2⟩) fuel _ hl).1

/-- C10: from the empty state, any interleaving-free sequence of
`explore_peer` / `explore_node` calls keeps every key of `updates` inside
`checked_addresses`, and a single call never removes an address from
either registry — both only grow. -/
theorem registry_monotone (env : Env) (steps : List Step) (s : Step) (st : CrawlState) :
    (∀ x ∈ keys (runSteps env steps initState).updates,
        x ∈ (runSteps env steps initState).checked_addresses) ∧
    st.checked_addresses ⊆ (runStep env st s).checked_addresses ∧
    keys st.updates ⊆ keys (runStep env st s).updates := by
  refine ⟨?_, ?_, ?_⟩
  · have hstep : ∀ (stx : CrawlState) (sx : Step), KeysInv stx → KeysInv (runStep env stx sx) := by
      intro stx sx h
      cases sx with
      | peer a => exact explore_peer_keys env a stx h
      | node a => exact explore_node_keys env a stx h
    exact foldl_preserve hstep steps initState
      (fun x hx => absurd hx (List.not_mem_nil x))
  · cases s with
    | peer a => exact (explore_peer_le env a st).1
    | node a => exact (explore_node_le env a st).1
  · cases s with
    | peer a => exact (explore_peer_le env a st).2.1
    | node a => exact (explore_node_le env a st).2.1

/-- C5: when every address a node can report lies in a finite universe `U`
(and so does every bootstrap address), the `while peers_to_explore:` loop
reaches an empty frontier after finitely many layers: some finite fuel
completes the crawl, because `checked_addresses` only grows inside `U` and
a layer adds no work for already-checked addresses. -/
theorem crawl_terminates (env : Env) (U : Finset String) (bootstrap : List String)
    (hb : ∀ a ∈ bootstrap, a ∈ U)
    (hq : ∀ b p, p ∈ queryPeers env b → p ∈ U) :
    ∃ n, (mainCrawl env bootstrap n).peers_to_explore = [] := by
  have hinit : ClosedIn U initState :=
    ⟨fun x hx => absurd hx (List.not_mem_nil x),
     fun x hx => absurd hx (List.not_mem_nil x)⟩
  have hseed : ClosedIn U (runLayer env initState bootstrap) :=
    runLayer_closed env U hq bootstrap hb initState hinit
  exact runLoop_term env U hq _ (runLayer env initState bootstrap) (le_refl _) hseed

/-- Witness for C5 at the three-node world: the universe is only
{"a", "b", "c"}, and the crawl indeed reaches an empty frontier. -/
theorem crawl_terminates_witness :
    ∃ n, (mainCrawl env3 ["a"] n).peers_to_explore = [] := by
  refine crawl_terminates env3 {"a", "b", "c"} ["a"] ?_ ?_
  · intro a ha
    rcases List.mem_singleton.1 ha with rfl
    decide
  · intro b p hp
    by_cases h1 : b = "a"
    · subst h1
      rw [show queryPeers env3 "a" = ["b", "c"] from rfl] at hp
      simp only [List.mem_cons, List.not_mem_nil, or_false] at hp
      rcases hp with rfl | rfl <;> decide
    · by_cases h2 : b = "b"
      · subst h2
        rw [show queryPeers env3 "b" = ["a"] from rfl] at hp
        simp only [List.mem_cons, List.not_mem_nil, or_false] at hp
        rcases hp with rfl
        decide
      · by_cases h3 : b = "c"
        · subst h3
          rw [show queryPeers env3 "c" = ["a"] from rfl] at hp
          simp only [List.mem_cons, List.not_mem_nil, or_false] at hp
          rcases hp with rfl
          decide
        · have hpe : env3.peersResp b = HttpOutcome.exn := by
            simp [env3, h1, h2, h3]
          have hie : env3.infoResp b = HttpOutcome.exn := by
            simp [env3, h1, h2, h3]
          have hz : queryPeers env3 b = [] := by
            unfold queryPeers Env.query
            rw [hpe, hie]
            rfl
          rw [hz] at hp
          exact absurd hp (List.not_mem_nil p)

/-- C2 evaluated at the failing input: with bootstrap `{"a"}` and a
responsive node `"a"`, the crawl opens a client session for `"a"` (it is
in the trace) yet the final `updates` mapping is empty — the queried
address never gains an entry, because `explore_node` adds the address to
`checked_addresses` before calling `explore_peer` on it, whose guard then
fires. -/
theorem bootstrap_queried_but_never_recorded :
    (mainCrawl env0 ["a"] 3).trace = ["a"] ∧
    (mainCrawl env0 ["a"] 3).updates = [] :=
  ⟨rfl, rfl⟩

/-- C3 evaluated at the failing input: with bootstrap `{"x"}` whose every
request times out, the final record is empty — no entry for `"x"` at all,
let alone an `Unreachable` (None) mark — while the frontier ends empty and
no failure escapes.  The fourth conjunct shows the engine's behaviour for
a timed-out address reached through a peer list: `_request` swallows the
exception, so `explore_peer` records a full PeerRecord with version
`"Unknown"` and an empty peer list, not the None sentinel. -/
theorem timeout_scenario_eval :
    (mainCrawl envX ["x"] 2).updates = [] ∧
    (mainCrawl envX ["x"] 2).peers_to_explore = [] ∧
    (mainCrawl envX ["x"] 2).trace = ["x"] ∧
    (explore_peer envX "x" initState).updates =
      [("x", some { announced_address := "x", real_ip := none,
                    country_code := Json.str "??", latitude := Json.null,
                    longitude := Json.null, version := Json.str "Unknown",
                    peers := [] })] :=
  ⟨rfl, rfl, rfl, rfl⟩

/-- C4 evaluated at the failing input (the spec's three-node scenario):
the final record has exactly two entries, `"b"` and `"c"`, each a full
record with version `"3.8.4"` and no None mark; the bootstrap node `"a"`
is absent.  Each of the three nodes is queried exactly once (the trace),
so no 4th query is attempted against `"a"`; the frontier ends empty. -/
theorem three_node_scenario_eval :
    keys (mainCrawl env3 ["a"] 3).updates = ["b", "c"] ∧
    (mainCrawl env3 ["a"] 3).updates.map (fun kv => Option.map PeerRec.version kv.2) =
      [some (Json.str "3.8.4"), some (Json.str "3.8.4")] ∧
    (mainCrawl env3 ["a"] 3).updates.all (fun kv => kv.2.isSome) = true ∧
    (mainCrawl env3 ["a"] 3).trace = ["a", "b", "c"] ∧
    (mainCrawl env3 ["a"] 3).peers_to_explore = [] :=
  ⟨rfl, rfl, rfl, rfl, rfl⟩
